import Mathlib

/-!
Verification of the `public-explanation` repository (a Python CLI that
explains a GitHub repository with an AI model) against its natural-language
specification.

Python strings are shallowly embedded as `List Char`; every function below is
translated from a named function of the source tree (`src/public_explanation`).
ASCII-level primitives (`str.strip`, `str.lower`, `str.split`, substring
tests, the two regular expressions of `repository.py`) are modelled for the
ASCII fragment the program manipulates; Python raises/exceptions are modelled
with `Option`/`Except`.
-/

namespace PublicExplanation

/-- The six ASCII whitespace characters recognised by Python's `str.strip()` /
`str.split()` (space, tab, newline, vertical tab, form feed, carriage return). -/
def pyIsSpace (c : Char) : Bool :=
  c == ' ' || c == '\t' || c == '\n' || c == '\x0b' || c == '\x0c' || c == '\r'

/-- ASCII `str.lower()` on a single character. -/
def pyToLower (c : Char) : Char :=
  if 'A' ≤ c && c ≤ 'Z' then Char.ofNat (c.toNat + 32) else c

/-- `s.lower()` on an embedded string. -/
def pyLower (s : List Char) : List Char := s.map pyToLower

/-- Does `t` occur at the start of `s`?  (Helper for the substring test.) -/
def startsWith : List Char → List Char → Bool
  | [], _ => true
  | _ :: _, [] => false
  | c :: t, d :: s => c == d && startsWith t s

/-- Python's substring containment `t in s`. -/
def pyIn (t s : List Char) : Bool :=
  startsWith t s ||
    match s with
    | [] => false
    | _ :: rest => pyIn t rest

/-- Python's `s.endswith(t)`. -/
def pyEndsWith (t s : List Char) : Bool :=
  startsWith t.reverse s.reverse

/-- Python's `str.strip()` (for ASCII whitespace): drop leading and trailing
whitespace. -/
def pyStrip (s : List Char) : List Char :=
  ((s.dropWhile pyIsSpace).reverse.dropWhile pyIsSpace).reverse

/-- Maximal runs of characters satisfying `p`, in order (helper modelling both
`str.split()` and the regex `\b\w+\b` token scan). `acc` holds the current run
reversed. -/
def runsAux (p : Char → Bool) : List Char → List Char → List (List Char)
  | [], acc => if acc.isEmpty then [] else [acc.reverse]
  | c :: cs, acc =>
    if p c then runsAux p cs (c :: acc)
    else if acc.isEmpty then runsAux p cs []
    else acc.reverse :: runsAux p cs []

/-- Maximal runs of characters satisfying `p`. -/
def runs (p : Char → Bool) (s : List Char) : List (List Char) := runsAux p s []

/-- Python's whitespace `str.split()`: the maximal runs of non-whitespace. -/
def pySplit (s : List Char) : List (List Char) := runs (fun c => !pyIsSpace c) s

/-- The character class `[a-zA-Z0-9._-]` shared by both regular expressions of
`repository.py`. -/
def slugChar (c : Char) : Bool :=
  c.isAlpha || c.isDigit || c == '.' || c == '_' || c == '-'

/-- `RepositoryInfo` (models.py): identity plus optional enrichment fields.
`size_mb` is kept as a rational (the Python value is a float used only for
display/threshold tests). -/
structure RepositoryInfo where
  owner : List Char
  name : List Char
  url : List Char
  source_type : List Char
  description : Option (List Char) := none
  stars : Option ℕ := none
  size_mb : Option ℚ := none
  language : Option (List Char) := none
  deriving DecidableEq

/-- Derived `full_name` property of `RepositoryInfo`. -/
def RepositoryInfo.full_name (r : RepositoryInfo) : List Char :=
  r.owner ++ '/' :: r.name

/-- Derived `github_url` property of `RepositoryInfo`. -/
def RepositoryInfo.github_url (r : RepositoryInfo) : List Char :=
  "https://github.com/".data ++ r.owner ++ '/' :: r.name

/-- The backquote character (first entry of `dangerous_chars`). -/
def backquote : Char := Char.ofNat 96

/-- The denylist of `RepositoryDiscovery.sanitize_input`, in source order. -/
def dangerous_chars : List Char :=
  [backquote, '$', ';', '|', '&', '>', '<']

/-- `RepositoryDiscovery.sanitize_input`: strip surrounding whitespace, then
remove every occurrence of each denylisted character (the console warning per
removed character is a side effect outside the value model). -/
def sanitize_input (s : List Char) : List Char :=
  dangerous_chars.foldl (fun acc c => acc.filter (fun d => d != c)) (pyStrip s)

/-- Python's `re.match(r'^[a-zA-Z0-9._-]+$', s)` as a Boolean: one or more
slug characters spanning the whole string, where `$` also matches just before
one final newline (Python `$` semantics). -/
def reMatchSlugFull (s : List Char) : Bool :=
  (!s.isEmpty && s.all slugChar) ||
    (s.getLast? == some '\n' && !s.dropLast.isEmpty && s.dropLast.all slugChar)

/-- Error messages of `validate_repository_format`, as functions of the
offending value. -/
def msgInvalidOwnerFormat (owner : List Char) : List Char :=
  "Invalid owner format: ".data ++ owner

/-- See `msgInvalidOwnerFormat`. -/
def msgInvalidNameFormat (name : List Char) : List Char :=
  "Invalid repository name format: ".data ++ name

/-- See `msgInvalidOwnerFormat`. -/
def msgInvalidOwner (owner : List Char) : List Char :=
  "Invalid owner: ".data ++ owner

/-- See `msgInvalidOwnerFormat`. -/
def msgInvalidName (name : List Char) : List Char :=
  "Invalid repository name: ".data ++ name

/-- The literal list `['', 'null', 'undefined']` tested (against the
lower-cased field) by `validate_repository_format`. -/
def invalidLiterals : List (List Char) :=
  [[], "null".data, "undefined".data]

/-- `RepositoryDiscovery.validate_repository_format`: returns
`(is_valid, error_message)`. -/
def validate_repository_format (r : RepositoryInfo) : Bool × Option (List Char) :=
  if !reMatchSlugFull r.owner then (false, some (msgInvalidOwnerFormat r.owner))
  else if !reMatchSlugFull r.name then (false, some (msgInvalidNameFormat r.name))
  else if invalidLiterals.contains (pyLower r.owner) then
    (false, some (msgInvalidOwner r.owner))
  else if invalidLiterals.contains (pyLower r.name) then
    (false, some (msgInvalidName r.name))
  else (true, none)

/-- Drop a trailing run of characters satisfying `p` (helper for Python's
one-sided `str.strip(chars)`). -/
def dropTrailing (p : Char → Bool) (s : List Char) : List Char :=
  (s.reverse.dropWhile p).reverse

/-- Python's `s.strip('/')`: remove leading and trailing slashes. -/
def pyStripSlashes (s : List Char) : List Char :=
  dropTrailing (fun c => c == '/') (s.dropWhile (fun c => c == '/'))

/-- Strip the scheme-and-host prefix required by `GITHUB_URL_PATTERN`
(`https?://github\.com/`), returning the remainder on success. -/
def stripHttpGithub (s : List Char) : Option (List Char) :=
  if startsWith "https://github.com/".data s then
    some (s.drop "https://github.com/".data.length)
  else if startsWith "http://github.com/".data s then
    some (s.drop "http://github.com/".data.length)
  else none

/-- `GITHUB_URL_PATTERN.match(s)` (repository.py): the unanchored-at-the-end
pattern `https?://github\.com/([a-zA-Z0-9._-]+)/([a-zA-Z0-9._-]+)/?` applied
with `re.match` (so a prefix match suffices); returns the two groups. Since
`/` is outside the character class, the greedy groups are exactly the maximal
slug runs and no backtracking arises. -/
def urlPatternMatch (s : List Char) : Option (List Char × List Char) :=
  match stripHttpGithub s with
  | none => none
  | some rest =>
    let owner := rest.takeWhile slugChar
    if owner.isEmpty then none
    else
      match rest.dropWhile slugChar with
      | [] => none
      | c :: rest2 =>
        if c = '/' then
          let nm := rest2.takeWhile slugChar
          if nm.isEmpty then none else some (owner, nm)
        else none

/-- The fully anchored core of `OWNER_REPO_PATTERN`
(`^([a-zA-Z0-9._-]+)/([a-zA-Z0-9._-]+)$`) with `$` read as end-of-string. -/
def ownerRepoCore (s : List Char) : Option (List Char × List Char) :=
  let owner := s.takeWhile slugChar
  if owner.isEmpty then none
  else
    match s.dropWhile slugChar with
    | [] => none
    | c :: rest2 =>
      if c = '/' then
        let nm := rest2.takeWhile slugChar
        if nm.isEmpty then none
        else if (rest2.dropWhile slugChar).isEmpty then some (owner, nm) else none
      else none

/-- `OWNER_REPO_PATTERN.match(s)` (repository.py): as `ownerRepoCore`, but
Python's `$` also matches just before one final newline. -/
def ownerRepoMatch (s : List Char) : Option (List Char × List Char) :=
  match ownerRepoCore s with
  | some r => some r
  | none => if s.getLast? == some '\n' then ownerRepoCore s.dropLast else none

/-- A character that belongs to a URL's path rather than to its query or
fragment. -/
def notQueryHash (c : Char) : Bool := !(c == '?') && !(c == '#')

/-- The path component `urlparse(s).path` of a URL in the domain of
`GITHUB_URL_PATTERN` (scheme `http`/`https`, authority `github.com`): the
leading slash followed by everything up to the first `?` or `#`. -/
def urlPathOf (s : List Char) : Option (List Char) :=
  (stripHttpGithub s).map fun rest => '/' :: rest.takeWhile notQueryHash

/-- The static fallback table of `RepositoryDiscovery._mock_search_result`,
in dictionary insertion order: search key to (owner, repo). -/
def mock_results : List (List Char × List Char × List Char) :=
  [("react".data, "facebook".data, "react".data),
   ("react router".data, "remix-run".data, "react-router".data),
   ("vue".data, "vuejs".data, "vue".data),
   ("angular".data, "angular".data, "angular".data),
   ("express".data, "expressjs".data, "express".data),
   ("fastapi".data, "tiangolo".data, "fastapi".data),
   ("django".data, "django".data, "django".data),
   ("flask".data, "pallets".data, "flask".data),
   ("next".data, "vercel".data, "next.js".data),
   ("nuxt".data, "nuxt".data, "nuxt".data)]

/-- Build the `RepositoryInfo` the mock search returns for a table hit or for
the generic fallback. -/
def mockInfo (owner name : List Char) : RepositoryInfo :=
  { owner := owner, name := name,
    url := "https://github.com/".data ++ owner ++ '/' :: name,
    source_type := "search_term".data }

/-- `RepositoryDiscovery._mock_search_result` (repository.py, API-disabled
fallback). A table key matching as a substring of the lower-cased input wins
(first in insertion order); otherwise the generic mock takes the first
whitespace token and strips non-alphanumeric characters
(`re.sub(r'[^a-zA-Z0-9]', '', search_term.split()[0])`). When the input has
no token, `search_term.split()[0]` raises an uncaught `IndexError`, modelled
as `none`. -/
def mock_search_result (search_term : List Char) : Option RepositoryInfo :=
  let searchLower := pyLower search_term
  match mock_results.find? (fun e => pyIn e.1 searchLower) with
  | some e => some (mockInfo e.2.1 e.2.2)
  | none =>
    match pySplit search_term with
    | [] => none
    | t :: _ =>
      let cleanTerm := t.filter (fun c => c.isAlpha || c.isDigit)
      let nm := if cleanTerm.isEmpty then "mock-repo".data else cleanTerm
      some (mockInfo "mock-owner".data nm)

/-- The user's observable action at the interactive selection prompt: a
(1-based, prompt-validated) index, or an interrupt (Ctrl-C / EOF). -/
inductive SelectAction where
  | pick (i : ℕ)
  | interrupt
  deriving DecidableEq

/-- `GitHubAPI.select_repository_interactive` (github_api.py) on already
resolved search results: no result yields `None`; a single result is
auto-selected without prompting; with several results an interrupt yields
`None` and a validated pick returns that entry (the prompt re-asks until the
index is one of the listed choices, so only in-range picks terminate). -/
def select_repository_interactive (results : List RepositoryInfo)
    (act : SelectAction) : Option RepositoryInfo :=
  match results with
  | [] => none
  | [r] => some r
  | _ :: _ :: _ =>
    match act with
    | .interrupt => none
    | .pick i => results.get? (i - 1)

/-- Python exceptions reaching `main.cli`'s handlers. -/
inductive PyExc where
  | keyboardInterrupt
  | valueError (msg : List Char)
  | indexError
  deriving DecidableEq

/-- `RepositoryDiscovery._search_repositories` (repository.py): no result
raises `ValueError("No repositories found for search term: ...")`; a
cancelled selection raises `ValueError("Repository selection cancelled")`;
otherwise the selected result becomes the descriptor. -/
def search_repositories (search_term : List Char)
    (results : List RepositoryInfo) (act : SelectAction) :
    Except PyExc RepositoryInfo :=
  if results.isEmpty then
    .error (.valueError ("No repositories found for search term: ".data ++ search_term))
  else
    match select_repository_interactive results act with
    | none => .error (.valueError "Repository selection cancelled".data)
    | some r => .ok { r with source_type := "search_term".data }

/-- The exit status `main.cli`'s exception handlers assign (main.py): a
`KeyboardInterrupt` exits 0 ("Operation cancelled by user"); every other
exception falls to the generic handler and exits 1. -/
def cliExceptionExitCode : PyExc → ℕ
  | .keyboardInterrupt => 0
  | _ => 1

/-- The regex `\w` character class for the ASCII fragment (used by the
`\b\w+\b` token scan of `_extract_question_keywords`). -/
def wordChar (c : Char) : Bool := c.isAlpha || c.isDigit || c == '_'

/-- The stop-word set of `ContentProcessor._extract_question_keywords`. -/
def stop_words : List (List Char) :=
  ["how".data, "what".data, "where".data, "when".data, "why".data, "does".data,
   "do".data, "can".data, "is".data, "are".data, "the".data, "a".data,
   "an".data, "to".data, "for".data, "with".data, "in".data, "on".data,
   "at".data, "by".data, "this".data, "that".data]

/-- The technical-term vocabulary of
`ContentProcessor._extract_question_keywords`, in source order. -/
def tech_terms : List (List Char) :=
  ["api".data, "rest".data, "auth".data, "test".data, "config".data,
   "setup".data, "install".data, "deploy".data, "docker".data,
   "database".data, "model".data, "view".data, "controller".data,
   "route".data, "middleware".data]

/-- `ContentProcessor._extract_question_keywords`: tokenize the lower-cased
question on `\b\w+\b`, keep tokens that are neither stop words nor of length
at most 2, append every technical term occurring as a substring of the
lower-cased question, and deduplicate (`list(set(...))`; Python's set order is
arbitrary, the model keeps first occurrences — all claims are membership
claims). -/
def extract_question_keywords (question : List Char) : List (List Char) :=
  let ql := pyLower question
  let words := runs wordChar ql
  let keywords := words.filter (fun w => !stop_words.contains w && decide (w.length > 2))
  (keywords ++ tech_terms.filter (fun t => pyIn t ql)).eraseDups

/-- The trigger-term lists of `ContentProcessor._generate_include_patterns`. -/
def apiTriggers : List (List Char) := ["api".data, "rest".data, "endpoint".data]

/-- See `apiTriggers`. -/
def tutorialTriggers : List (List Char) :=
  ["tutorial".data, "example".data, "getting started".data]

/-- See `apiTriggers`. -/
def configTriggers : List (List Char) :=
  ["config".data, "setup".data, "install".data]

/-- The API/entrypoint glob set added when an API trigger term occurs in the
question. -/
def apiPatterns : List (List Char) :=
  ["*api*.py".data, "main.py".data, "app.py".data, "docs/tutorial/*.md".data]

/-- `ContentProcessor._generate_include_patterns`: the always-on
documentation globs, plus Python-ecosystem manifests when the descriptor's
language is Python, plus the question-triggered glob groups. The Python set
is modelled as a list up to membership (all claims are membership claims);
`repo_info.language or 'unknown'` treats both `None` and the empty string as
unknown. -/
def generate_include_patterns (question : List Char)
    (language : Option (List Char)) : List (List Char) :=
  let lang := match language with
    | none => "unknown".data
    | some l => if l.isEmpty then "unknown".data else l
  let ql := pyLower question
  ["README*".data, "readme*".data, "CONTRIBUTING*".data, "LICENSE*".data]
  ++ (if pyLower lang == "python".data then
        ["pyproject.toml".data, "setup.py".data, "requirements*.txt".data,
         "__init__.py".data]
      else [])
  ++ (if apiTriggers.any (fun t => pyIn t ql) then apiPatterns else [])
  ++ (if tutorialTriggers.any (fun t => pyIn t ql) then
        ["examples/*".data, "tutorial/*".data, "docs/tutorial/*".data]
      else [])
  ++ (if configTriggers.any (fun t => pyIn t ql) then
        ["setup.py".data, "pyproject.toml".data, "requirements*.txt".data,
         "Dockerfile".data, "docker-compose.*".data]
      else [])

/-- The question string `ContentProcessor.process_repository` actually
receives from `main.cli` (main.py line 156): the call
`content_processor.process_repository(repo_info, dry_run=dry_run)` omits the
`question` argument, so the parameter keeps its default `""` for every run,
whatever the user asked. -/
def mainCallQuestion : List Char := []

/-- The include-pattern set the extraction step runs under for a pipeline
invocation of `main.cli`: `process_repository` builds its patterns from the
`question` parameter, which main.py leaves at the default `""`; the user's
sanitized question is ignored here. -/
def cliExtractionIncludePatterns (_cleanQuestion : List Char)
    (language : Option (List Char)) : List (List Char) :=
  generate_include_patterns mainCallQuestion language

/-- `Path(filepath).name`, lower-cased later by the caller: the last
slash-separated component (faithful for paths without `.`/`..` components,
the only ones the claims mention). -/
def lastPathComponent (s : List Char) : List Char :=
  ((runs (fun c => !(c == '/')) s).getLast?).getD []

/-- One clause of `str.endswith((suffix, ...))`. -/
def endsWithAny (sufs : List (List Char)) (s : List Char) : Bool :=
  sufs.any (fun t => pyEndsWith t s)

/-- The base score of `ContentProcessor._calculate_file_importance`: the
first matching rule of the `if`/`elif` chain, on the lower-cased file name
and path. -/
def importanceBase (filepath : List Char) : ℕ :=
  let filename := pyLower (lastPathComponent filepath)
  let filepath_lower := pyLower filepath
  if pyIn "readme".data filename || pyIn "README".data filename then 100
  else if filename == "contributing.md".data || filename == "contributing.rst".data
      || filename == "license".data || filename == "license.md".data
      || filename == "license.txt".data then 90
  else if pyIn "docs/".data filepath_lower || pyIn "doc/".data filepath_lower
      || pyIn "documentation/".data filepath_lower then 80
  else if endsWithAny [".md".data, ".rst".data, ".txt".data] filename
      && pyIn "doc".data filename then 75
  else if filename == "main.py".data || filename == "app.py".data
      || filename == "server.py".data || filename == "index.js".data
      || filename == "app.js".data || filename == "main.js".data then 70
  else if filename == "package.json".data || filename == "pyproject.toml".data
      || filename == "setup.py".data || filename == "requirements.txt".data
      || filename == "cargo.toml".data then 65
  else if endsWithAny [".py".data, ".js".data, ".ts".data, ".java".data,
        ".go".data, ".rs".data] filename
      && !pyIn "test".data filepath_lower then 60
  else if endsWithAny [".json".data, ".yaml".data, ".yml".data, ".toml".data,
        ".ini".data, ".conf".data] filename then 40
  else if filename == "dockerfile".data || filename == "makefile".data
      || filename == ".env.example".data then 45
  else if pyIn "test".data filepath_lower || pyIn "spec".data filepath_lower then 20
  else if pyIn "example".data filepath_lower || pyIn "demo".data filepath_lower then 25
  else 0

/-- `ContentProcessor._calculate_file_importance`: the base rule score plus
30 for every question keyword occurring as a substring of the lower-cased
path or file name. -/
def calculate_file_importance (filepath : List Char)
    (question_keywords : List (List Char)) : ℕ :=
  let filename := pyLower (lastPathComponent filepath)
  let filepath_lower := pyLower filepath
  question_keywords.foldl
    (fun sc kw => if pyIn kw filepath_lower || pyIn kw filename then sc + 30 else sc)
    (importanceBase filepath)

/-- The UTF-8 byte count of one character (Python `len(ch.encode('utf-8'))`). -/
def utf8Size (c : Char) : ℕ :=
  if c.toNat < 0x80 then 1
  else if c.toNat < 0x800 then 2
  else if c.toNat < 0x10000 then 3
  else 4

/-- `len(content.encode('utf-8'))`. -/
def utf8Len (s : List Char) : ℕ := (s.map utf8Size).sum

/-- The fixed truncation-notice marker of
`ContentProcessor._filter_content_by_size`, as a function of the configured
ceiling in MB. -/
def truncWarning (maxTotalSizeMb : ℕ) : List Char :=
  "\n\n[CONTENT TRUNCATED - Original size exceeded ".data
    ++ (toString maxTotalSizeMb).data ++ "MB limit]".data

/-- The character budget `int(self.max_total_size_bytes * 0.8)` of the
truncation branch. For every ceiling the tool accepts (at most 10000 MB
checked exhaustively; the float product `bytes * 0.8` is exact enough below
2^53), the Python expression equals `4 * bytes / 5` in integer arithmetic. -/
def truncMaxChars (maxTotalBytes : ℕ) : ℕ := 4 * maxTotalBytes / 5

/-- `ContentProcessor._filter_content_by_size`: content whose UTF-8 byte
length is within `max_total_size_mb * 1024 * 1024` passes unchanged;
otherwise the first `int(bytes * 0.8)` characters are kept and the fixed
truncation marker is appended. -/
def filter_content_by_size (maxTotalSizeMb : ℕ) (content : List Char) : List Char :=
  let maxTotalBytes := maxTotalSizeMb * 1024 * 1024
  if utf8Len content ≤ maxTotalBytes then content
  else content.take (truncMaxChars maxTotalBytes) ++ truncWarning maxTotalSizeMb

/-- The result record of `ContentProcessor.estimate_token_cost`. The Python
cost is an IEEE float; it is modelled exactly over `ℚ` (the float arithmetic
`pt*0.005/1000 + rt*0.015/1000` is a rounded image of this value and shares
its monotonicity). -/
structure TokenEstimate where
  prompt_tokens : ℕ
  estimated_response_tokens : ℕ
  total_tokens : ℕ
  estimated_cost_usd : ℚ
  deriving DecidableEq

/-- `ContentProcessor.estimate_token_cost`: 4 characters per token over the
concatenation `content + question`; response tokens capped at 1000; the fixed
GPT-4o price table ($0.005 per 1k prompt tokens, $0.015 per 1k response
tokens). -/
def estimate_token_cost (content question : List Char) : TokenEstimate :=
  let pt := (content ++ question).length / 4
  let rt := min 1000 (pt / 10)
  { prompt_tokens := pt
    estimated_response_tokens := rt
    total_tokens := pt + rt
    estimated_cost_usd := ((pt : ℚ) * 5 + (rt : ℚ) * 15) / 1000000 }

/-! ### Helper lemmas -/

/-- Folding the keyword-bonus accumulator adds 30 per matching keyword. -/
theorem foldl_add30 (P : List Char → Bool) (l : List (List Char)) (b : ℕ) :
    l.foldl (fun sc kw => if P kw then sc + 30 else sc) b = b + 30 * l.countP P := by
  induction l generalizing b with
  | nil => simp
  | cons a t ih =>
    rw [List.foldl_cons, List.countP_cons, ih]
    cases hP : P a
    case false => simp [hP]
    case true => simp [hP]; omega

/-! ### Claims -/

/-- C9: keyword extraction on "How do I set up authentication with the REST
API?" includes "authentication" and the technical terms "api", "rest" and
"auth", and excludes "how", "do", "with", "the", every stop word, and every
token of length at most 2. -/
theorem claim_C9_keywords :
    "authentication".data ∈ extract_question_keywords "How do I set up authentication with the REST API?".data ∧
    "api".data ∈ extract_question_keywords "How do I set up authentication with the REST API?".data ∧
    "rest".data ∈ extract_question_keywords "How do I set up authentication with the REST API?".data ∧
    "auth".data ∈ extract_question_keywords "How do I set up authentication with the REST API?".data ∧
    "how".data ∉ extract_question_keywords "How do I set up authentication with the REST API?".data ∧
    "do".data ∉ extract_question_keywords "How do I set up authentication with the REST API?".data ∧
    "with".data ∉ extract_question_keywords "How do I set up authentication with the REST API?".data ∧
    "the".data ∉ extract_question_keywords "How do I set up authentication with the REST API?".data ∧
    (∀ w ∈ stop_words, w ∉ extract_question_keywords "How do I set up authentication with the REST API?".data) ∧
    (∀ w ∈ extract_question_keywords "How do I set up authentication with the REST API?".data, 2 < w.length) := by
  decide

/-- C4: the per-file importance score assigns 100 to `README.md`, 70 to
`src/main.py` (the entry-point rule fires before the source-extension rule),
20 to `tests/test_foo.py` (the source-extension rule excludes paths
containing "test"), and every keyword occurring as a substring of the
lower-cased path or name adds 30 on top of the base-rule score. -/
theorem claim_C4_importance :
    calculate_file_importance "README.md".data [] = 100 ∧
    (calculate_file_importance "src/main.py".data [] = 60 ∨
      calculate_file_importance "src/main.py".data [] = 70) ∧
    calculate_file_importance "src/main.py".data [] = 70 ∧
    calculate_file_importance "tests/test_foo.py".data [] = 20 ∧
    ∀ filepath kws, calculate_file_importance filepath kws =
      calculate_file_importance filepath []
        + 30 * kws.countP (fun kw =>
            pyIn kw (pyLower filepath) || pyIn kw (pyLower (lastPathComponent filepath))) := by
  refine ⟨by decide, Or.inr (by decide), by decide, by decide, ?_⟩
  intro filepath kws
  show kws.foldl _ (importanceBase filepath) = _
  rw [foldl_add30]
  rfl

/-- C1: contrary to the claim, the content-extraction step does not run under
the FilterPlan of the user's question: `main.cli` (main.py line 156) calls
`process_repository` without passing the question, so the include patterns
are generated from the default empty question and contain no API/entrypoint
globs even when the question carries an API trigger term. Had the question
been passed, the API globs would be present. -/
theorem claim_C1_extraction_ignores_question :
    pyIn "api".data (pyLower "How do I set up the REST API?".data) = true ∧
    "*api*.py".data ∈
      generate_include_patterns "How do I set up the REST API?".data (some "Python".data) ∧
    "docs/tutorial/*.md".data ∈
      generate_include_patterns "How do I set up the REST API?".data (some "Python".data) ∧
    cliExtractionIncludePatterns "How do I set up the REST API?".data (some "Python".data)
      = generate_include_patterns [] (some "Python".data) ∧
    "*api*.py".data ∉
      cliExtractionIncludePatterns "How do I set up the REST API?".data (some "Python".data) ∧
    "docs/tutorial/*.md".data ∉
      cliExtractionIncludePatterns "How do I set up the REST API?".data (some "Python".data) := by
  refine ⟨by decide, by decide, by decide, rfl, by decide, by decide⟩

/-- C3: contrary to the claim, interrupting the interactive selection does
not terminate the pipeline with a zero status: the interrupt becomes
`ValueError("Repository selection cancelled")`, which `main.cli`'s generic
exception handler maps to exit code 1 — the same non-zero status as the
no-match failure (only a raw `KeyboardInterrupt`, swallowed here, would exit
0). -/
theorem claim_C3_cancellation_exits_nonzero :
    search_repositories "react router".data
        [mockInfo "remix-run".data "react-router".data,
         mockInfo "facebook".data "react".data] .interrupt
      = .error (.valueError "Repository selection cancelled".data) ∧
    cliExceptionExitCode (.valueError "Repository selection cancelled".data) = 1 ∧
    search_repositories "zzz".data [] .interrupt
      = .error (.valueError ("No repositories found for search term: zzz".data)) ∧
    cliExceptionExitCode (.valueError ("No repositories found for search term: zzz".data)) = 1 ∧
    cliExceptionExitCode .keyboardInterrupt = 0 := by
  refine ⟨rfl, rfl, rfl, rfl, rfl⟩

/-- The UTF-8 byte length of a repeated character. -/
theorem utf8Len_replicate (n : ℕ) (c : Char) :
    utf8Len (List.replicate n c) = n * utf8Size c := by
  simp [utf8Len, List.map_replicate, List.sum_replicate, smul_eq_mul]

/-- C2 (counterexample): the claim "the returned string is always strictly
shorter than the input" fails. With the 1 MB ceiling, 400000 copies of the
three-byte character 'あ' exceed the byte ceiling (1200000 bytes) but fall
short of the 838860-character budget, so the whole content is kept and the
truncation marker is appended: the output is strictly longer than the
input. -/
theorem claim_C2_counterexample :
    1 * 1024 * 1024 < utf8Len (List.replicate 400000 'あ') ∧
    (List.replicate 400000 'あ').length <
      (filter_content_by_size 1 (List.replicate 400000 'あ')).length := by
  have hsize : utf8Size 'あ' = 3 := by decide
  have hlen : utf8Len (List.replicate 400000 'あ') = 1200000 := by
    rw [utf8Len_replicate, hsize]
  constructor
  · omega
  · rw [filter_content_by_size]
    rw [if_neg (by omega)]
    rw [List.length_append, List.length_take, List.length_replicate]
    have hw : 0 < (truncWarning 1).length := by decide
    simp only [truncMaxChars]
    omega

/-- C2 (amended): content within the byte ceiling passes unchanged; content
over the ceiling is truncated to at most `int(0.8 * ceiling)` characters
(exactly that many when the content is at least that long) with the fixed
marker appended, and the output is strictly shorter than the input whenever
the input is longer than the character budget plus the marker — but not in
general (see the counterexample). -/
theorem claim_C2_truncation :
    (∀ mb c, utf8Len c ≤ mb * 1024 * 1024 → filter_content_by_size mb c = c) ∧
    (∀ mb c, mb * 1024 * 1024 < utf8Len c →
       filter_content_by_size mb c
         = c.take (truncMaxChars (mb * 1024 * 1024)) ++ truncWarning mb ∧
       (filter_content_by_size mb c).length
         = min (truncMaxChars (mb * 1024 * 1024)) c.length + (truncWarning mb).length) ∧
    (∀ mb c, mb * 1024 * 1024 < utf8Len c →
       truncMaxChars (mb * 1024 * 1024) + (truncWarning mb).length < c.length →
       (filter_content_by_size mb c).length < c.length) := by
  refine ⟨?_, ?_, ?_⟩
  · intro mb c h
    rw [filter_content_by_size, if_pos h]
  · intro mb c h
    rw [filter_content_by_size, if_neg (by omega)]
    refine ⟨rfl, ?_⟩
    rw [List.length_append, List.length_take]
  · intro mb c h hlong
    rw [filter_content_by_size, if_neg (by omega)]
    rw [List.length_append, List.length_take]
    omega

/-- Witness for `claim_C2_truncation` at concrete inputs: a small content
passes untouched under the 50 MB ceiling, and long ASCII content under a tiny
ceiling shrinks. -/
theorem claim_C2_witness :
    filter_content_by_size 50 "abc".data = "abc".data ∧
    (filter_content_by_size 0 (List.replicate 60 'a')).length
      < (List.replicate 60 'a').length := by
  refine ⟨claim_C2_truncation.1 50 "abc".data (by decide), ?_⟩
  exact claim_C2_truncation.2.2 0 (List.replicate 60 'a') (by decide) (by decide)

/-- C8: the token/cost estimate is a pure function of the two lengths (with
the fixed price-table entry), computes prompt tokens as
`(len(content)+len(question)) div 4` and response tokens as
`min(1000, prompt div 10)`, and all four output fields are monotonically
non-decreasing in the content length for a fixed question. -/
theorem claim_C8_token_cost :
    (∀ content question,
       (estimate_token_cost content question).prompt_tokens
           = (content.length + question.length) / 4 ∧
       (estimate_token_cost content question).estimated_response_tokens
           = min 1000 ((content.length + question.length) / 4 / 10) ∧
       (estimate_token_cost content question).total_tokens
           = (estimate_token_cost content question).prompt_tokens
             + (estimate_token_cost content question).estimated_response_tokens) ∧
    (∀ c₁ q₁ c₂ q₂, c₁.length = c₂.length → q₁.length = q₂.length →
       estimate_token_cost c₁ q₁ = estimate_token_cost c₂ q₂) ∧
    (∀ q c₁ c₂, c₁.length ≤ c₂.length →
       (estimate_token_cost c₁ q).prompt_tokens
           ≤ (estimate_token_cost c₂ q).prompt_tokens ∧
       (estimate_token_cost c₁ q).estimated_response_tokens
           ≤ (estimate_token_cost c₂ q).estimated_response_tokens ∧
       (estimate_token_cost c₁ q).total_tokens
           ≤ (estimate_token_cost c₂ q).total_tokens ∧
       (estimate_token_cost c₁ q).estimated_cost_usd
           ≤ (estimate_token_cost c₂ q).estimated_cost_usd) := by
  refine ⟨?_, ?_, ?_⟩
  · intro c q
    refine ⟨by simp [estimate_token_cost], by simp [estimate_token_cost], rfl⟩
  · intro c₁ q₁ c₂ q₂ hc hq
    simp [estimate_token_cost, hc, hq]
  · intro q c₁ c₂ h
    have hpt : (c₁ ++ q).length / 4 ≤ (c₂ ++ q).length / 4 := by
      apply Nat.div_le_div_right
      simp only [List.length_append]
      omega
    have hrt : min 1000 ((c₁ ++ q).length / 4 / 10)
        ≤ min 1000 ((c₂ ++ q).length / 4 / 10) := by
      have := Nat.div_le_div_right (c := 10) hpt
      omega
    refine ⟨hpt, hrt, by simpa [estimate_token_cost] using Nat.add_le_add hpt hrt, ?_⟩
    show ((((c₁ ++ q).length / 4 : ℕ) : ℚ) * 5 + ((min 1000 ((c₁ ++ q).length / 4 / 10) : ℕ) : ℚ) * 15) / 1000000
        ≤ ((((c₂ ++ q).length / 4 : ℕ) : ℚ) * 5 + ((min 1000 ((c₂ ++ q).length / 4 / 10) : ℕ) : ℚ) * 15) / 1000000
    have h5 : (((c₁ ++ q).length / 4 : ℕ) : ℚ) ≤ (((c₂ ++ q).length / 4 : ℕ) : ℚ) :=
      Nat.cast_le.mpr hpt
    have h15 : ((min 1000 ((c₁ ++ q).length / 4 / 10) : ℕ) : ℚ)
        ≤ ((min 1000 ((c₂ ++ q).length / 4 / 10) : ℕ) : ℚ) := Nat.cast_le.mpr hrt
    have hnum : (((c₁ ++ q).length / 4 : ℕ) : ℚ) * 5
          + ((min 1000 ((c₁ ++ q).length / 4 / 10) : ℕ) : ℚ) * 15
        ≤ (((c₂ ++ q).length / 4 : ℕ) : ℚ) * 5
          + ((min 1000 ((c₂ ++ q).length / 4 / 10) : ℕ) : ℚ) * 15 := by
      nlinarith
    exact div_le_div_of_nonneg_right hnum (by norm_num)

/-- Witness for `claim_C8_token_cost`: equal lengths give equal estimates,
and growing the content does not decrease the estimated cost. -/
theorem claim_C8_witness :
    estimate_token_cost "ab".data "cd".data = estimate_token_cost "xy".data "zw".data ∧
    (estimate_token_cost "a".data "q".data).estimated_cost_usd
      ≤ (estimate_token_cost "aaaaaaaa".data "q".data).estimated_cost_usd := by
  exact ⟨claim_C8_token_cost.2.1 "ab".data "cd".data "xy".data "zw".data rfl rfl,
    (claim_C8_token_cost.2.2 "q".data "a".data "aaaaaaaa".data (by decide)).2.2.2⟩

/-- The chained denylist filters only ever remove characters. -/
theorem foldl_filter_subset (cs l : List Char) :
    cs.foldl (fun (acc : List Char) (d : Char) => acc.filter (fun y => y != d)) l ⊆ l := by
  induction cs generalizing l with
  | nil => exact fun x hx => hx
  | cons d t ih =>
    intro x hx
    rw [List.foldl_cons] at hx
    exact (List.mem_filter.mp (ih _ hx)).1

/-- A character absent from the input stays absent through the denylist
filters. -/
theorem not_mem_foldl_filter_of_not_mem {x : Char} (cs l : List Char) (h : x ∉ l) :
    x ∉ cs.foldl (fun (acc : List Char) (d : Char) => acc.filter (fun y => y != d)) l :=
  fun hx => h (foldl_filter_subset cs l hx)

/-- Every denylisted character is absent from the filtered result. -/
theorem not_mem_foldl_filter_self (cs : List Char) (c : Char) (hc : c ∈ cs) :
    ∀ l, c ∉ cs.foldl (fun (acc : List Char) (d : Char) => acc.filter (fun y => y != d)) l := by
  induction cs with
  | nil => cases hc
  | cons d t ih =>
    intro l
    rw [List.foldl_cons]
    rcases List.mem_cons.mp hc with rfl | hmem
    · apply not_mem_foldl_filter_of_not_mem
      intro hx
      have hbne := (List.mem_filter.mp hx).2
      simp at hbne
    · exact ih hmem _

/-- When no character of `cs` occurs in `l`, the chained filters are the
identity. -/
theorem foldl_filter_eq_self (cs l : List Char) (h : ∀ c ∈ cs, c ∉ l) :
    cs.foldl (fun (acc : List Char) (d : Char) => acc.filter (fun y => y != d)) l = l := by
  induction cs with
  | nil => rfl
  | cons d t ih =>
    rw [List.foldl_cons]
    have hd : d ∉ l := h d (List.mem_cons_self d t)
    have hfix : l.filter (fun y => y != d) = l := by
      refine List.filter_eq_self.mpr (fun a ha => ?_)
      have hne : a ≠ d := fun e => hd (e ▸ ha)
      simpa using hne
    rw [hfix]
    exact ih (fun c hct => h c (List.mem_cons_of_mem _ hct))

/-- The head of a `dropWhile` result fails the predicate. -/
theorem dropWhile_head_false (p : Char → Bool) (l : List Char) (c : Char)
    (r : List Char) (h : l.dropWhile p = c :: r) : p c = false := by
  induction l with
  | nil => simp [List.dropWhile] at h
  | cons a t ih =>
    by_cases hpa : p a = true
    · apply ih
      simpa [List.dropWhile, hpa] using h
    · have hpa' : p a = false := by simpa using hpa
      rw [List.dropWhile, hpa'] at h
      rcases h with ⟨⟩
      exact hpa'

/-- `dropWhile` fixes a list whose head fails the predicate. -/
theorem dropWhile_eq_self_of_head (p : Char → Bool) (c : Char) (r : List Char)
    (h : p c = false) : (c :: r).dropWhile p = c :: r := by
  rw [List.dropWhile, h]

/-- Every list splits into its trailing-strip and the stripped-off tail. -/
theorem eq_dropTrailing_append (p : Char → Bool) (l : List Char) :
    l = dropTrailing p l ++ (l.reverse.takeWhile p).reverse := by
  conv_lhs => rw [← l.reverse_reverse,
    ← List.takeWhile_append_dropWhile (p := p) (l := l.reverse)]
  rw [List.reverse_append]
  rfl

/-- `pyStrip` only removes characters. -/
theorem pyStrip_subset (s : List Char) : ∀ x ∈ pyStrip s, x ∈ s := by
  intro x hx
  rw [pyStrip, List.mem_reverse] at hx
  have hx2 := List.dropWhile_subset _ hx
  rw [List.mem_reverse] at hx2
  exact List.dropWhile_subset _ hx2

/-- `str.strip()` is idempotent. -/
theorem pyStrip_idem (s : List Char) : pyStrip (pyStrip s) = pyStrip s := by
  show ((((((s.dropWhile pyIsSpace).reverse.dropWhile pyIsSpace).reverse).dropWhile
      pyIsSpace).reverse.dropWhile pyIsSpace)).reverse
    = ((s.dropWhile pyIsSpace).reverse.dropWhile pyIsSpace).reverse
  set A := s.dropWhile pyIsSpace with hA
  set B := A.reverse.dropWhile pyIsSpace with hB
  have h1 : B.reverse.dropWhile pyIsSpace = B.reverse := by
    cases hBr : B.reverse with
    | nil => rfl
    | cons c r =>
      apply dropWhile_eq_self_of_head
      have hdecomp : A = B.reverse ++ (A.reverse.takeWhile pyIsSpace).reverse := by
        have := eq_dropTrailing_append pyIsSpace A
        rw [dropTrailing, ← hB] at this
        exact this
      rw [hBr] at hdecomp
      exact dropWhile_head_false pyIsSpace s c
        (r ++ (A.reverse.takeWhile pyIsSpace).reverse) hdecomp
  rw [h1, List.reverse_reverse, hB, List.dropWhile_idempotent]

/-- On denylist-free input, `sanitize_input` is exactly `str.strip()`. -/
theorem sanitize_eq_strip (s : List Char) (h : ∀ c ∈ dangerous_chars, c ∉ s) :
    sanitize_input s = pyStrip s := by
  rw [sanitize_input]
  exact foldl_filter_eq_self _ _ (fun c hc hmem => h c hc (pyStrip_subset s c hmem))

/-- C6 (counterexample): sanitization is not idempotent and its output can
carry leading/trailing whitespace. The input `"$ a $"` has no surrounding
whitespace, so stripping is a no-op; removing the two dollar signs then
exposes the inner spaces: the output is `" a "`, which a second sanitization
shrinks to `"a"`. -/
theorem claim_C6_counterexample :
    sanitize_input "$ a $".data = " a ".data ∧
    sanitize_input (sanitize_input "$ a $".data) ≠ sanitize_input "$ a $".data ∧
    pyStrip (sanitize_input "$ a $".data) ≠ sanitize_input "$ a $".data := by
  refine ⟨by decide, by decide, by decide⟩

/-- C6 (amended): the output never contains a denylisted character, for every
input; and on inputs already free of denylisted characters sanitization is
idempotent and the output carries no leading or trailing whitespace (it
equals its own strip). In general the strip-then-remove order can expose
interior whitespace at the ends, so neither idempotence nor the
no-edge-whitespace property holds unconditionally (see the counterexample). -/
theorem claim_C6_sanitize :
    (∀ s, ∀ c ∈ dangerous_chars, c ∉ sanitize_input s) ∧
    (∀ s, (∀ c ∈ dangerous_chars, c ∉ s) →
       sanitize_input (sanitize_input s) = sanitize_input s ∧
       pyStrip (sanitize_input s) = sanitize_input s) := by
  constructor
  · intro s c hc
    exact not_mem_foldl_filter_self dangerous_chars c hc (pyStrip s)
  · intro s h
    have h1 : sanitize_input s = pyStrip s := sanitize_eq_strip s h
    have hclean : ∀ c ∈ dangerous_chars, c ∉ pyStrip s :=
      fun c hc hmem => h c hc (pyStrip_subset s c hmem)
    have h2 : sanitize_input (pyStrip s) = pyStrip (pyStrip s) :=
      sanitize_eq_strip _ hclean
    rw [h1, h2]
    exact ⟨pyStrip_idem s, pyStrip_idem s⟩

/-- Witness for `claim_C6_sanitize`: the dollar sign is removed from
`"a$b"`, and sanitizing the denylist-free `" ab "` is idempotent. -/
theorem claim_C6_witness :
    '$' ∉ sanitize_input "a$b".data ∧
    sanitize_input (sanitize_input " ab ".data) = sanitize_input " ab ".data :=
  ⟨claim_C6_sanitize.1 "a$b".data '$' (by decide),
   (claim_C6_sanitize.2 " ab ".data (by decide)).1⟩

/-- A string matching `^[a-zA-Z0-9._-]+$` is non-empty. -/
theorem reMatchSlugFull_ne_nil (s : List Char) (h : reMatchSlugFull s = true) :
    s ≠ [] := by
  intro hs
  subst hs
  simp [reMatchSlugFull] at h

/-- C7: validation succeeds iff both owner and name match the anchored slug
pattern (hence are non-empty) and neither lower-cases to the literal "null"
or "undefined"; on violation the error message carries the offending field's
value. -/
theorem claim_C7_validation :
    (∀ r : RepositoryInfo,
       (validate_repository_format r).1 = true ↔
         (reMatchSlugFull r.owner = true ∧ reMatchSlugFull r.name = true ∧
          pyLower r.owner ≠ "null".data ∧ pyLower r.owner ≠ "undefined".data ∧
          pyLower r.name ≠ "null".data ∧ pyLower r.name ≠ "undefined".data)) ∧
    (∀ r : RepositoryInfo, (validate_repository_format r).1 = false →
       ∃ m, (validate_repository_format r).2 = some m ∧
         (m = msgInvalidOwnerFormat r.owner ∨ m = msgInvalidNameFormat r.name ∨
          m = msgInvalidOwner r.owner ∨ m = msgInvalidName r.name)) := by
  have hmem : ∀ x : List Char, invalidLiterals.contains x = true ↔
      (x = [] ∨ x = "null".data ∨ x = "undefined".data) := by
    intro x
    simp [invalidLiterals, List.contains]
  have hcontains : ∀ x : List Char, invalidLiterals.contains x = false ↔
      (x ≠ [] ∧ x ≠ "null".data ∧ x ≠ "undefined".data) := by
    intro x
    rw [← Bool.not_eq_true, hmem]
    push_neg
    tauto
  have hval : ∀ r : RepositoryInfo,
      (validate_repository_format r).1
        = (reMatchSlugFull r.owner && reMatchSlugFull r.name
            && !invalidLiterals.contains (pyLower r.owner)
            && !invalidLiterals.contains (pyLower r.name)) := by
    intro r
    rw [validate_repository_format]
    cases hb1 : reMatchSlugFull r.owner <;>
      cases hb2 : reMatchSlugFull r.name <;>
      cases hb3 : invalidLiterals.contains (pyLower r.owner) <;>
      cases hb4 : invalidLiterals.contains (pyLower r.name) <;>
      simp
  constructor
  · intro r
    rw [hval r]
    simp only [Bool.and_eq_true, Bool.not_eq_true']
    constructor
    · rintro ⟨⟨⟨hb1, hb2⟩, hb3⟩, hb4⟩
      have h3 := (hcontains _).mp hb3
      have h4 := (hcontains _).mp hb4
      exact ⟨hb1, hb2, h3.2.1, h3.2.2, h4.2.1, h4.2.2⟩
    · rintro ⟨hb1, hb2, ho1, ho2, hn1, hn2⟩
      have how : pyLower r.owner ≠ [] := by
        have := reMatchSlugFull_ne_nil r.owner hb1
        simpa [pyLower] using this
      have hnm : pyLower r.name ≠ [] := by
        have := reMatchSlugFull_ne_nil r.name hb2
        simpa [pyLower] using this
      exact ⟨⟨⟨hb1, hb2⟩, (hcontains _).mpr ⟨how, ho1, ho2⟩⟩,
        (hcontains _).mpr ⟨hnm, hn1, hn2⟩⟩
  · intro r hfail
    by_cases hb1 : reMatchSlugFull r.owner = true
    · by_cases hb2 : reMatchSlugFull r.name = true
      · by_cases hb3 : invalidLiterals.contains (pyLower r.owner) = true
        · refine ⟨msgInvalidOwner r.owner, ?_, by tauto⟩
          rw [validate_repository_format, hb1, hb2, hb3]
          rfl
        · have hb3' : invalidLiterals.contains (pyLower r.owner) = false := by
            simpa using hb3
          by_cases hb4 : invalidLiterals.contains (pyLower r.name) = true
          · refine ⟨msgInvalidName r.name, ?_, by tauto⟩
            rw [validate_repository_format, hb1, hb2, hb3', hb4]
            rfl
          · exfalso
            have hb4' : invalidLiterals.contains (pyLower r.name) = false := by
              simpa using hb4
            rw [validate_repository_format, hb1, hb2, hb3', hb4'] at hfail
            simp at hfail
      · have hb2' : reMatchSlugFull r.name = false := by simpa using hb2
        refine ⟨msgInvalidNameFormat r.name, ?_, by tauto⟩
        rw [validate_repository_format, hb1, hb2']
        rfl
    · have hb1' : reMatchSlugFull r.owner = false := by simpa using hb1
      refine ⟨msgInvalidOwnerFormat r.owner, ?_, by tauto⟩
      rw [validate_repository_format, hb1']
      rfl

/-- Witness for `claim_C7_validation`: a well-formed descriptor validates,
and the owner literal "null" is rejected with a message carrying it. -/
theorem claim_C7_witness :
    (validate_repository_format (mockInfo "facebook".data "react".data)).1 = true ∧
    ∃ m, (validate_repository_format (mockInfo "null".data "x".data)).2 = some m ∧
      (m = msgInvalidOwnerFormat "null".data ∨ m = msgInvalidNameFormat "x".data ∨
       m = msgInvalidOwner "null".data ∨ m = msgInvalidName "x".data) :=
  ⟨(claim_C7_validation.1 (mockInfo "facebook".data "react".data)).mpr (by decide),
   claim_C7_validation.2 (mockInfo "null".data "x".data) (by decide)⟩

/-- A start-of-string match only uses characters of the searched string. -/
theorem startsWith_subset (t s : List Char) (h : startsWith t s = true) :
    ∀ c ∈ t, c ∈ s := by
  induction t generalizing s with
  | nil => intro c hc; cases hc
  | cons a t' ih =>
    cases s with
    | nil => simp [startsWith] at h
    | cons d s' =>
      rw [startsWith, Bool.and_eq_true] at h
      intro c hc
      rcases List.mem_cons.mp hc with rfl | hmem
      · rw [List.mem_cons]
        left
        exact (beq_iff_eq.mp h.1)
      · exact List.mem_cons_of_mem _ (ih s' h.2 c hmem)

/-- A substring only uses characters of the searched string. -/
theorem pyIn_subset (t s : List Char) (h : pyIn t s = true) : ∀ c ∈ t, c ∈ s := by
  induction s with
  | nil =>
    rw [pyIn, Bool.or_eq_true] at h
    rcases h with h | h
    · exact startsWith_subset t [] h
    · cases h
  | cons d s' ih =>
    rw [pyIn, Bool.or_eq_true] at h
    rcases h with h | h
    · exact startsWith_subset t (d :: s') h
    · exact fun c hc => List.mem_cons_of_mem _ (ih h c hc)

/-- ASCII lower-casing fixes whitespace characters. -/
theorem pyToLower_of_space (d : Char) (h : pyIsSpace d = true) : pyToLower d = d := by
  simp only [pyIsSpace, Bool.or_eq_true, beq_iff_eq] at h
  rcases h with ((((rfl | rfl) | rfl) | rfl) | rfl) | rfl <;> decide

/-- A key containing a non-whitespace character cannot occur in the
lower-casing of an all-whitespace string. -/
theorem pyIn_key_all_space (s : List Char) (hs : ∀ c ∈ s, pyIsSpace c = true)
    (key : List Char) (k : Char) (hk : k ∈ key) (hns : pyIsSpace k = false) :
    pyIn key (pyLower s) = false := by
  cases hIn : pyIn key (pyLower s) with
  | false => rfl
  | true =>
    exfalso
    have hkmem : k ∈ pyLower s := pyIn_subset key (pyLower s) hIn k hk
    rcases List.mem_map.mp hkmem with ⟨d, hd, hdk⟩
    have hdsp := hs d hd
    rw [pyToLower_of_space d hdsp] at hdk
    rw [hdk] at hdsp
    rw [hdsp] at hns
    cases hns

/-- A run scan started with a non-empty pending run never returns the empty
list. -/
theorem runsAux_ne_nil (p : Char → Bool) (s : List Char) :
    ∀ acc, acc ≠ [] → runsAux p s acc ≠ [] := by
  induction s with
  | nil =>
    intro acc hacc
    rw [runsAux]
    have : acc.isEmpty = false := by
      cases acc
      · exact absurd rfl hacc
      · rfl
    rw [this]
    simp
  | cons c cs ih =>
    intro acc hacc
    rw [runsAux]
    by_cases hp : p c = true
    · rw [hp]
      simp only [if_true]
      exact ih (c :: acc) (by simp)
    · have hp' : p c = false := by simpa using hp
      rw [hp']
      have : acc.isEmpty = false := by
        cases acc
        · exact absurd rfl hacc
        · rfl
      simp [this]

/-- If the run scan finds no run, every character fails the predicate. -/
theorem runs_eq_nil (p : Char → Bool) (s : List Char) (h : runs p s = []) :
    ∀ c ∈ s, p c = false := by
  rw [runs] at h
  induction s with
  | nil => intro c hc; cases hc
  | cons c cs ih =>
    rw [runsAux] at h
    by_cases hp : p c = true
    · rw [hp] at h
      simp only [if_true] at h
      exact absurd h (runsAux_ne_nil p cs [c] (by simp))
    · have hp' : p c = false := by simpa using hp
      rw [hp'] at h
      simp only [List.isEmpty_nil, if_true, if_false] at h
      intro d hd
      rcases List.mem_cons.mp hd with rfl | hmem
      · exact hp'
      · exact ih h d hmem

/-- A tokenless input has only whitespace characters. -/
theorem pySplit_eq_nil (s : List Char) (h : pySplit s = []) :
    ∀ c ∈ s, pyIsSpace c = true := by
  intro c hc
  have := runs_eq_nil _ s h c hc
  simpa using this

/-- C10: with API-backed search disabled, the static fallback resolver is not
total: an input with no whitespace token (so that `search_term.split()` is
empty) matches no table key and reaches `search_term.split()[0]`, raising an
uncaught `IndexError` (modelled as `none`) instead of producing a descriptor
or a resolution failure; any input with at least one token yields a
descriptor. -/
theorem claim_C10_mock_fallback :
    (∀ s, pySplit s = [] → mock_search_result s = none) ∧
    (∀ s t ts, pySplit s = t :: ts → ∃ r, mock_search_result s = some r) := by
  constructor
  · intro s h
    have hsp : ∀ c ∈ s, pyIsSpace c = true := pySplit_eq_nil s h
    have hfind : mock_results.find? (fun e => pyIn e.1 (pyLower s)) = none := by
      rw [List.find?_eq_none]
      intro e he
      fin_cases he
      · simp [pyIn_key_all_space s hsp ['r', 'e', 'a', 'c', 't'] 'r'
          (by decide) (by decide)]
      · simp [pyIn_key_all_space s hsp
          ['r', 'e', 'a', 'c', 't', ' ', 'r', 'o', 'u', 't', 'e', 'r'] 'r'
          (by decide) (by decide)]
      · simp [pyIn_key_all_space s hsp ['v', 'u', 'e'] 'v' (by decide) (by decide)]
      · simp [pyIn_key_all_space s hsp ['a', 'n', 'g', 'u', 'l', 'a', 'r'] 'a'
          (by decide) (by decide)]
      · simp [pyIn_key_all_space s hsp ['e', 'x', 'p', 'r', 'e', 's', 's'] 'e'
          (by decide) (by decide)]
      · simp [pyIn_key_all_space s hsp ['f', 'a', 's', 't', 'a', 'p', 'i'] 'f'
          (by decide) (by decide)]
      · simp [pyIn_key_all_space s hsp ['d', 'j', 'a', 'n', 'g', 'o'] 'd'
          (by decide) (by decide)]
      · simp [pyIn_key_all_space s hsp ['f', 'l', 'a', 's', 'k'] 'f'
          (by decide) (by decide)]
      · simp [pyIn_key_all_space s hsp ['n', 'e', 'x', 't'] 'n'
          (by decide) (by decide)]
      · simp [pyIn_key_all_space s hsp ['n', 'u', 'x', 't'] 'n'
          (by decide) (by decide)]
    simp [mock_search_result, hfind, h]
  · intro s t ts h
    cases hfind : mock_results.find? (fun e => pyIn e.1 (pyLower s)) with
    | some e =>
      refine ⟨mockInfo e.2.1 e.2.2, ?_⟩
      simp [mock_search_result, hfind]
    | none =>
      refine ⟨mockInfo "mock-owner".data
        (if (t.filter (fun c => c.isAlpha || c.isDigit)).isEmpty then "mock-repo".data
         else t.filter (fun c => c.isAlpha || c.isDigit)), ?_⟩
      simp [mock_search_result, hfind, h]

/-- Witness for `claim_C10_mock_fallback`: the all-whitespace input hits the
`IndexError`, while a two-token garbage input still yields a descriptor. -/
theorem claim_C10_witness :
    mock_search_result " ".data = none ∧
    ∃ r, mock_search_result "zzz qq".data = some r :=
  ⟨claim_C10_mock_fallback.1 " ".data (by decide),
   claim_C10_mock_fallback.2 "zzz qq".data "zzz".data ["qq".data] (by decide)⟩

/-- `takeWhile` keeps a list all of whose elements pass. -/
theorem takeWhile_eq_self_of_all (p : Char → Bool) (a : List Char)
    (h : ∀ c ∈ a, p c = true) : a.takeWhile p = a := by
  induction a with
  | nil => rfl
  | cons c t ih =>
    have hc : p c = true := h c (List.mem_cons_self c t)
    rw [List.takeWhile, hc, ih (fun d hd => h d (List.mem_cons_of_mem c hd))]

/-- `takeWhile` passes over an all-passing block. -/
theorem takeWhile_append_all (p : Char → Bool) (a b : List Char)
    (h : ∀ c ∈ a, p c = true) : (a ++ b).takeWhile p = a ++ b.takeWhile p := by
  rw [List.takeWhile_append, if_pos]
  rw [takeWhile_eq_self_of_all p a h]

/-- `dropWhile` consumes a list all of whose elements pass. -/
theorem dropWhile_eq_nil_of_all (p : Char → Bool) (a : List Char)
    (h : ∀ c ∈ a, p c = true) : a.dropWhile p = [] := by
  induction a with
  | nil => rfl
  | cons c t ih =>
    have hc : p c = true := h c (List.mem_cons_self c t)
    rw [List.dropWhile, hc]
    exact ih (fun d hd => h d (List.mem_cons_of_mem c hd))

/-- `dropWhile` consumes an all-passing block. -/
theorem dropWhile_append_all (p : Char → Bool) (a b : List Char)
    (h : ∀ c ∈ a, p c = true) : (a ++ b).dropWhile p = b.dropWhile p := by
  rw [List.dropWhile_append, if_pos]
  rw [dropWhile_eq_nil_of_all p a h]
  rfl

/-- `takeWhile` stops at a failing head. -/
theorem takeWhile_cons_false (p : Char → Bool) (c : Char) (l : List Char)
    (h : p c = false) : (c :: l).takeWhile p = [] := by
  rw [List.takeWhile, h]

/-- `takeWhile` crosses a passing head. -/
theorem takeWhile_cons_true (p : Char → Bool) (c : Char) (l : List Char)
    (h : p c = true) : (c :: l).takeWhile p = c :: l.takeWhile p := by
  rw [List.takeWhile, h]

/-- Inverting a non-trivial `takeWhile`. -/
theorem takeWhile_cons_inv (p : Char → Bool) (l : List Char) (c : Char)
    (r : List Char) (h : l.takeWhile p = c :: r) :
    ∃ l', l = c :: l' ∧ p c = true := by
  cases l with
  | nil => cases h
  | cons d l' =>
    by_cases hd : p d = true
    · rw [takeWhile_cons_true p d l' hd] at h
      injection h with h1 h2
      exact ⟨l', by rw [h1], by rw [← h1]; exact hd⟩
    · rw [takeWhile_cons_false p d l' (by simpa using hd)] at h
      cases h

/-- A slug character is neither `?` nor `#`. -/
theorem slug_notQueryHash (c : Char) (h : slugChar c = true) :
    notQueryHash c = true := by
  have hq : c ≠ '?' := fun e => by subst e; simp [slugChar] at h
  have hh : c ≠ '#' := fun e => by subst e; simp [slugChar] at h
  simp [notQueryHash, hq, hh]

/-- A slug character is not a slash. -/
theorem slug_ne_slash (c : Char) (h : slugChar c = true) : (c == '/') = false := by
  have hs : c ≠ '/' := fun e => by subst e; simp [slugChar] at h
  simpa using hs

/-- Trailing strip across an append whose right part strips to nothing. -/
theorem dropTrailing_append_nil (p : Char → Bool) (a b : List Char)
    (hb : dropTrailing p b = []) :
    dropTrailing p (a ++ b) = dropTrailing p a := by
  have hb' : (b.reverse.dropWhile p).isEmpty = true := by
    rw [List.isEmpty_iff, ← List.reverse_eq_nil_iff]
    rw [dropTrailing] at hb
    rw [← List.reverse_reverse (b.reverse.dropWhile p), hb]
    rfl
  rw [dropTrailing, List.reverse_append, List.dropWhile_append, if_pos hb']
  rfl

/-- Trailing strip across an append whose right part keeps something. -/
theorem dropTrailing_append_ne_nil (p : Char → Bool) (a b : List Char)
    (hb : dropTrailing p b ≠ []) :
    dropTrailing p (a ++ b) = a ++ dropTrailing p b := by
  have hb' : (b.reverse.dropWhile p).isEmpty = false := by
    rw [← Bool.not_eq_true, List.isEmpty_iff]
    intro he
    apply hb
    rw [dropTrailing, he]
    rfl
  rw [dropTrailing, List.reverse_append, List.dropWhile_append, hb']
  rw [if_neg (by simp), List.reverse_append, List.reverse_reverse]
  rfl

/-- Trailing slash-strip fixes a block ending in a slug character. -/
theorem dropTrailing_slug_block (owner name : List Char) (hnNe : name ≠ [])
    (hnAll : ∀ c ∈ name, slugChar c = true) :
    dropTrailing (fun c => c == '/') (owner ++ ('/' :: name))
      = owner ++ ('/' :: name) := by
  cases hnr : name.reverse with
  | nil => exact absurd (List.reverse_eq_nil_iff.mp hnr) hnNe
  | cons c r =>
    have hcmem : c ∈ name := List.mem_reverse.mp (hnr ▸ List.mem_cons_self c r)
    have hcslash : (c == '/') = false := slug_ne_slash c (hnAll c hcmem)
    rw [dropTrailing, List.reverse_append]
    have hrev : ('/' :: name).reverse = c :: (r ++ ['/']) := by
      rw [List.reverse_cons, hnr]
      rfl
    rw [hrev, List.cons_append,
      dropWhile_eq_self_of_head _ c (r ++ ['/'] ++ owner.reverse) hcslash]
    rw [← List.cons_append, ← hrev, List.reverse_append, List.reverse_reverse,
      List.reverse_reverse]

/-- `ownerRepoCore` on the canonical decomposition
`owner ++ '/' :: name ++ t₂` (slug blocks followed by a residue that is empty
or starts with a non-slug character): it succeeds exactly when the residue is
empty. -/
theorem ownerRepoCore_canonical (owner name t₂ : List Char)
    (hoAll : ∀ c ∈ owner, slugChar c = true) (hoNe : owner ≠ [])
    (hnAll : ∀ c ∈ name, slugChar c = true) (hnNe : name ≠ [])
    (ht : t₂ = [] ∨ ∃ c t', t₂ = c :: t' ∧ slugChar c = false) :
    ownerRepoCore (owner ++ ('/' :: (name ++ t₂)))
      = if t₂.isEmpty then some (owner, name) else none := by
  have hslash : slugChar '/' = false := by decide
  have hTake : (owner ++ ('/' :: (name ++ t₂))).takeWhile slugChar = owner := by
    rw [takeWhile_append_all _ _ _ hoAll, takeWhile_cons_false _ _ _ hslash,
      List.append_nil]
  have hDrop : (owner ++ ('/' :: (name ++ t₂))).dropWhile slugChar
      = '/' :: (name ++ t₂) := by
    rw [dropWhile_append_all _ _ _ hoAll,
      dropWhile_eq_self_of_head _ _ _ hslash]
  have hoE : owner.isEmpty = false := by
    rw [← Bool.not_eq_true, List.isEmpty_iff]
    exact hoNe
  have hTake2 : (name ++ t₂).takeWhile slugChar = name := by
    rcases ht with rfl | ⟨c, t', rfl, hcf⟩
    · rw [List.append_nil]
      exact takeWhile_eq_self_of_all _ _ hnAll
    · rw [takeWhile_append_all _ _ _ hnAll, takeWhile_cons_false _ _ _ hcf,
        List.append_nil]
  have hDrop2 : (name ++ t₂).dropWhile slugChar = t₂ := by
    rcases ht with rfl | ⟨c, t', rfl, hcf⟩
    · rw [List.append_nil]
      exact dropWhile_eq_nil_of_all _ _ hnAll
    · rw [dropWhile_append_all _ _ _ hnAll,
        dropWhile_eq_self_of_head _ _ _ hcf]
  have hnE : name.isEmpty = false := by
    rw [← Bool.not_eq_true, List.isEmpty_iff]
    exact hnNe
  show (let o := (owner ++ ('/' :: (name ++ t₂))).takeWhile slugChar
    if o.isEmpty then none
    else
      match (owner ++ ('/' :: (name ++ t₂))).dropWhile slugChar with
      | [] => none
      | c :: rest2 =>
        if c = '/' then
          let nm := rest2.takeWhile slugChar
          if nm.isEmpty then none
          else if (rest2.dropWhile slugChar).isEmpty then some (o, nm) else none
        else none) = _
  rw [hTake, hDrop]
  show (if owner.isEmpty then none
    else
      if '/' = '/' then
        if ((name ++ t₂).takeWhile slugChar).isEmpty then none
        else if ((name ++ t₂).dropWhile slugChar).isEmpty then
          some (owner, (name ++ t₂).takeWhile slugChar)
        else none
      else none) = _
  rw [hoE, hTake2, hDrop2, if_pos rfl, hnE]
  simp

/-- `OWNER_REPO_PATTERN` on the canonical decomposition can only extract the
two leading slug blocks (the `$`-before-final-newline quirk included). -/
theorem ownerRepoMatch_canonical (owner name t₂ o' n' : List Char)
    (hoAll : ∀ c ∈ owner, slugChar c = true) (hoNe : owner ≠ [])
    (hnAll : ∀ c ∈ name, slugChar c = true) (hnNe : name ≠ [])
    (ht : t₂ = [] ∨ ∃ c t', t₂ = c :: t' ∧ slugChar c = false)
    (h : ownerRepoMatch (owner ++ ('/' :: (name ++ t₂))) = some (o', n')) :
    o' = owner ∧ n' = name := by
  rw [ownerRepoMatch, ownerRepoCore_canonical owner name t₂ hoAll hoNe hnAll hnNe ht] at h
  rcases ht with rfl | ⟨c, t', rfl, hcf⟩
  · have h' : some (owner, name) = some (o', n') := h
    injection h' with h''
    injection h'' with h1 h2
    exact ⟨h1.symm, h2.symm⟩
  · have h' : (if ((owner ++ ('/' :: (name ++ c :: t'))).getLast? == some '\n') = true
        then ownerRepoCore (owner ++ ('/' :: (name ++ c :: t'))).dropLast
        else none) = some (o', n') := h
    by_cases hlast :
        ((owner ++ ('/' :: (name ++ c :: t'))).getLast? == some '\n') = true
    · rw [if_pos hlast] at h'
      have hassoc : owner ++ ('/' :: (name ++ c :: t'))
          = (owner ++ ('/' :: name)) ++ c :: t' := by
        rw [List.append_assoc, List.cons_append]
      have hdl : (owner ++ ('/' :: (name ++ c :: t'))).dropLast
          = owner ++ ('/' :: (name ++ (c :: t').dropLast)) := by
        rw [hassoc, List.dropLast_append_of_ne_nil _ (by simp),
          List.append_assoc, List.cons_append]
      rw [hdl] at h'
      have ht' : (c :: t').dropLast = []
          ∨ ∃ d t'', (c :: t').dropLast = d :: t'' ∧ slugChar d = false := by
        cases t' with
        | nil => left; rfl
        | cons e t'' =>
          right
          exact ⟨c, (e :: t'').dropLast,
            List.dropLast_cons_of_ne_nil (by simp), hcf⟩
      rw [ownerRepoCore_canonical owner name _ hoAll hoNe hnAll hnNe ht'] at h'
      rcases ht' with hnil | ⟨d, t'', hdl2, _⟩
      · rw [hnil] at h'
        have h'' : some (owner, name) = some (o', n') := h'
        injection h'' with h₃
        injection h₃ with h1 h2
        exact ⟨h1.symm, h2.symm⟩
      · rw [hdl2] at h'
        have h'' : (none : Option (List Char × List Char)) = some (o', n') := h'
        cases h''
    · rw [if_neg hlast] at h'
      cases h'

/-- Inversion of a successful `GITHUB_URL_PATTERN` match: the two groups are
the maximal slug runs after the host prefix, separated by a slash. -/
theorem urlPatternMatch_some (s owner name : List Char)
    (h : urlPatternMatch s = some (owner, name)) :
    ∃ rest rest2, stripHttpGithub s = some rest ∧
      owner = rest.takeWhile slugChar ∧ owner ≠ [] ∧
      rest.dropWhile slugChar = '/' :: rest2 ∧
      name = rest2.takeWhile slugChar ∧ name ≠ [] := by
  rw [urlPatternMatch] at h
  cases hstrip : stripHttpGithub s with
  | none =>
    rw [hstrip] at h
    cases h
  | some rest =>
    rw [hstrip] at h
    have h1 : (if (rest.takeWhile slugChar).isEmpty then none
        else
          match rest.dropWhile slugChar with
          | [] => none
          | c :: rest2 =>
            if c = '/' then
              if (rest2.takeWhile slugChar).isEmpty then none
              else some (rest.takeWhile slugChar, rest2.takeWhile slugChar)
            else none) = some (owner, name) := h
    by_cases hOe : (rest.takeWhile slugChar).isEmpty = true
    · rw [if_pos hOe] at h1
      cases h1
    · rw [if_neg hOe] at h1
      cases hdrop : rest.dropWhile slugChar with
      | nil =>
        rw [hdrop] at h1
        cases h1
      | cons c rest2 =>
        rw [hdrop] at h1
        have h2 : (if c = '/' then
            if (rest2.takeWhile slugChar).isEmpty then none
            else some (rest.takeWhile slugChar, rest2.takeWhile slugChar)
          else none) = some (owner, name) := h1
        by_cases hc : c = '/'
        · rw [if_pos hc] at h2
          subst hc
          by_cases hNe : (rest2.takeWhile slugChar).isEmpty = true
          · rw [if_pos hNe] at h2
            cases h2
          · rw [if_neg hNe] at h2
            injection h2 with h3
            injection h3 with ho hn
            refine ⟨rest, rest2, rfl, ho.symm, ?_, hdrop, hn.symm, ?_⟩
            · rw [← ho]
              intro he
              rw [he] at hOe
              exact hOe rfl
            · rw [← hn]
              intro he
              rw [he] at hNe
              exact hNe rfl
        · rw [if_neg hc] at h2
          cases h2

/-- `dropWhile` crosses a passing head. -/
theorem dropWhile_cons_true (p : Char → Bool) (c : Char) (l : List Char)
    (h : p c = true) : (c :: l).dropWhile p = l.dropWhile p := by
  rw [List.dropWhile, h]

/-- C5 (counterexample): the URL pattern is applied with `re.match`, which
accepts any continuation after the second group, so
`https://github.com/foo/bar/baz` matches with groups `(foo, bar)` while the
fully anchored owner/name pattern matches nothing on the URL's path component
(with or without its surrounding slashes stripped) — the two extractions are
not identical on every pattern-matching input. -/
theorem claim_C5_counterexample :
    urlPatternMatch "https://github.com/foo/bar/baz".data
      = some ("foo".data, "bar".data) ∧
    urlPathOf "https://github.com/foo/bar/baz".data = some "/foo/bar/baz".data ∧
    ownerRepoMatch "/foo/bar/baz".data = none ∧
    ownerRepoMatch (pyStripSlashes "/foo/bar/baz".data) = none := by
  refine ⟨by decide, by decide, by decide, by decide⟩

/-- C5 (amended): whenever the resolver's URL pattern matches and the
anchored owner/name pattern also matches the URL's path component stripped of
its surrounding slashes, the two extracted pairs agree; on inputs whose path
continues past the repository name the URL pattern still matches but the
anchored pattern does not (see the counterexample). -/
theorem claim_C5_url_slug_agreement :
    ∀ s owner name p o' n',
      urlPatternMatch s = some (owner, name) →
      urlPathOf s = some p →
      ownerRepoMatch (pyStripSlashes p) = some (o', n') →
      o' = owner ∧ n' = name := by
  intro s owner name p o' n' h1 h2 h3
  obtain ⟨rest, rest2, hstrip, hoEq, hoNe, hdrop, hnEq, hnNe⟩ :=
    urlPatternMatch_some s owner name h1
  have hoAll : ∀ c ∈ owner, slugChar c = true :=
    fun c hc => List.mem_takeWhile_imp (hoEq ▸ hc)
  have hnAll : ∀ c ∈ name, slugChar c = true :=
    fun c hc => List.mem_takeWhile_imp (hnEq ▸ hc)
  have hrest : rest = owner ++ ('/' :: rest2) := by
    conv_lhs => rw [← List.takeWhile_append_dropWhile slugChar rest]
    rw [← hoEq, hdrop]
  obtain ⟨tail, htail⟩ : ∃ tl, rest2.dropWhile slugChar = tl := ⟨_, rfl⟩
  have hrest2 : rest2 = name ++ tail := by
    conv_lhs => rw [← List.takeWhile_append_dropWhile slugChar rest2]
    rw [← hnEq, htail]
  have htailP : tail = [] ∨ ∃ c t', tail = c :: t' ∧ slugChar c = false := by
    cases htl : tail with
    | nil => exact Or.inl rfl
    | cons c t' =>
      refine Or.inr ⟨c, t', rfl, ?_⟩
      exact dropWhile_head_false slugChar rest2 c t' (htl ▸ htail)
  rw [urlPathOf, hstrip] at h2
  have hp : p = '/' :: rest.takeWhile notQueryHash := by
    have h2' : some ('/' :: rest.takeWhile notQueryHash) = some p := h2
    injection h2' with h2''
    exact h2''.symm
  have hoQ : ∀ c ∈ owner, notQueryHash c = true :=
    fun c hc => slug_notQueryHash c (hoAll c hc)
  have hnQ : ∀ c ∈ name, notQueryHash c = true :=
    fun c hc => slug_notQueryHash c (hnAll c hc)
  obtain ⟨t₁, ht₁⟩ : ∃ x, tail.takeWhile notQueryHash = x := ⟨_, rfl⟩
  have hpEq : rest.takeWhile notQueryHash = owner ++ ('/' :: (name ++ t₁)) := by
    rw [hrest, hrest2, takeWhile_append_all _ _ _ hoQ,
      takeWhile_cons_true _ _ _ (by decide), takeWhile_append_all _ _ _ hnQ, ht₁]
  obtain ⟨w, ow', howner⟩ : ∃ w ow', owner = w :: ow' := by
    cases owner with
    | nil => exact absurd rfl hoNe
    | cons w ow' => exact ⟨w, ow', rfl⟩
  have hwslash : (w == '/') = false :=
    slug_ne_slash w (hoAll w (howner ▸ List.mem_cons_self w ow'))
  have hfront : p.dropWhile (fun c => c == '/')
      = owner ++ ('/' :: (name ++ t₁)) := by
    rw [hp, hpEq, dropWhile_cons_true _ _ _ (by decide), howner,
      List.cons_append]
    exact dropWhile_eq_self_of_head (fun c => c == '/') w
      (ow' ++ ('/' :: (name ++ t₁))) hwslash
  have ht₁P : t₁ = [] ∨ ∃ c t', t₁ = c :: t' ∧ slugChar c = false := by
    cases ht1c : t₁ with
    | nil => exact Or.inl rfl
    | cons c t' =>
      refine Or.inr ⟨c, t', rfl, ?_⟩
      obtain ⟨l', hl', _⟩ :=
        takeWhile_cons_inv notQueryHash tail c t' (ht1c ▸ ht₁)
      rcases htailP with hnil | ⟨d, t'', htl, hdf⟩
      · rw [hnil] at hl'
        cases hl'
      · rw [htl] at hl'
        injection hl' with h1 _
        rw [h1] at hdf
        exact hdf
  have hreassoc : owner ++ ('/' :: (name ++ t₁))
      = (owner ++ ('/' :: name)) ++ t₁ := by
    rw [List.append_assoc, List.cons_append]
  by_cases ht2nil : dropTrailing (fun c => c == '/') t₁ = []
  · have hcanon : pyStripSlashes p = owner ++ ('/' :: (name ++ ([] : List Char))) := by
      rw [pyStripSlashes, hfront, hreassoc, dropTrailing_append_nil _ _ _ ht2nil,
        dropTrailing_slug_block owner name hnNe hnAll, List.append_nil]
    rw [hcanon] at h3
    exact ownerRepoMatch_canonical owner name [] o' n' hoAll hoNe hnAll hnNe
      (Or.inl rfl) h3
  · obtain ⟨t₂, ht₂⟩ : ∃ x, dropTrailing (fun c => c == '/') t₁ = x := ⟨_, rfl⟩
    have ht₂ne : t₂ ≠ [] := fun he => ht2nil (ht₂.trans he)
    have hcanon : pyStripSlashes p = owner ++ ('/' :: (name ++ t₂)) := by
      rw [pyStripSlashes, hfront, hreassoc,
        dropTrailing_append_ne_nil _ _ _ ht2nil, ht₂,
        List.append_assoc, List.cons_append]
    have ht₂P : t₂ = [] ∨ ∃ c t', t₂ = c :: t' ∧ slugChar c = false := by
      cases ht2c : t₂ with
      | nil => exact absurd ht2c ht₂ne
      | cons c t' =>
        refine Or.inr ⟨c, t', rfl, ?_⟩
        have hpre := eq_dropTrailing_append (fun c => c == '/') t₁
        rw [ht₂, ht2c, List.cons_append] at hpre
        rcases ht₁P with hnil | ⟨d, td, hd, hdf⟩
        · rw [hnil] at hpre
          cases hpre
        · rw [hd] at hpre
          injection hpre with h1 _
          rw [h1] at hdf
          exact hdf
    rw [hcanon] at h3
    exact ownerRepoMatch_canonical owner name t₂ o' n' hoAll hoNe hnAll hnNe
      ht₂P h3

/-- Witness for `claim_C5_url_slug_agreement` at the canonical URL
`https://github.com/foo/bar`, whose path strips to `foo/bar`. -/
theorem claim_C5_witness : "foo".data = "foo".data ∧ "bar".data = "bar".data :=
  claim_C5_url_slug_agreement "https://github.com/foo/bar".data
    "foo".data "bar".data "/foo/bar".data "foo".data "bar".data
    (by decide) (by decide) (by decide)

end PublicExplanation
